import Mathlib

/-!
Verification of the session-authentication core of
pouchdb-session-authentication (`src/index.js`).

Shallow embedding conventions:
* JS strings are modelled as `List Char` (`JStr`), so that JS `split`,
  `trim`, regex matching and template-literal concatenation become
  executable list functions that mirror the source line by line.
* `new Date(s).valueOf()` (the external Date library) is abstracted as an
  explicit `parseDate : JStr → Int` argument; no claim depends on its value.
* The WHATWG `URL` object is modelled by the structure `URLRec` together
  with its serializer `urlToString`; a connection descriptor carries its
  URL in parsed form.
* A JS exception (the `TypeError` thrown by `parseCookie` when the
  `Expires` attribute is missing) is modelled as `Except.error ()`.
* The module-level mutable `sessions` object and the request traffic are
  threaded as explicit state (`St`); the wrapped `db.fetch` takes a fuel
  argument because its 401-retry is literally unbounded recursion.
* The cooperative event-loop concurrency of `getValidSession` is modelled
  separately as a small-step relation (`Step`) whose atomic segments are
  exactly the stretches of code between `await` points in the source.
-/

namespace PDSA

/-- JS strings, modelled as lists of characters. -/
abbrev JStr := List Char

/-- `beginsWith pat s` : does `s` start with the literal `pat`?
(Used to model the regex literal search.) -/
def beginsWith : JStr → JStr → Bool
  | [], _ => true
  | _ :: _, [] => false
  | p :: ps, c :: cs => p = c && beginsWith ps cs

/-- `afterFirst pat s` : the suffix of `s` after the first occurrence of the
literal `pat`, or `none` when `pat` does not occur.  This models
`s.match(new RegExp("AuthSession=(.*)"))` finding the first literal match;
the `(.*)` truncation at a newline is applied by the caller. -/
def afterFirst (pat : JStr) : JStr → Option JStr
  | [] => none
  | c :: cs =>
    if beginsWith pat (c :: cs) then some (List.drop pat.length (c :: cs))
    else afterFirst pat cs

/-- JS `String.prototype.split` with a single-character separator. -/
def splitChar (sep : Char) : JStr → List JStr
  | [] => [[]]
  | c :: cs =>
    if c = sep then [] :: splitChar sep cs
    else
      match splitChar sep cs with
      | [] => [[c]]
      | p :: ps => (c :: p) :: ps

/-- Trailing-whitespace removal (right half of JS `trim`). -/
def trimRight (l : JStr) : JStr :=
  (l.reverse.dropWhile Char.isWhitespace).reverse

/-- JS `String.prototype.trim` (whitespace per `Char.isWhitespace`). -/
def trimChars (l : JStr) : JStr :=
  trimRight (l.dropWhile Char.isWhitespace)

/-- `const sessionCookieName = 'AuthSession';` -/
def sessionCookieName : JStr := "AuthSession".toList

/-- The literal part of `cookieRegex = new RegExp(`AuthSession=(.*)`)`. -/
def cookiePat : JStr := sessionCookieName ++ ['=']

/-- The cookie attribute name `'Expires'`. -/
def expiresKey : JStr := "Expires".toList

/-- A parsed session record: `{ token, expires }` in the source.
`expires` is a JS numeric timestamp (`Date.valueOf()` result). -/
structure Session where
  token : JStr
  expires : Int
deriving DecidableEq

/-- `cookie.match(cookieRegex)` : the captured group `matches[1]`, i.e. the
text after the first `AuthSession=` up to the end of the line (`.` in a JS
regex does not match a newline). -/
def cookieMatch (c : JStr) : Option JStr :=
  (afterFirst cookiePat c).map (fun r => r.takeWhile (fun ch => ch != '\n'))

/-- `matches[1].split(';').map(item => item.trim().split('='))`. -/
def cookieParts (m : JStr) : List (List JStr) :=
  (splitChar ';' m).map (fun item => splitChar '=' (trimChars item))

/-- `parseCookie(response)` from `src/index.js`, acting on the value of the
`set-cookie` header (`none` when the header is absent).
`Except.error ()` models the `TypeError` thrown by
`parts.find(part => part[0] === 'Expires')[1]` when no `Expires` attribute
is present (`Array.prototype.find` returns `undefined` there).
When the found `Expires` part has no value, the source feeds `undefined`
to `new Date`; the model feeds `[]` to `parseDate` (no claim depends on it). -/
def parseCookie (parseDate : JStr → Int) (cookie : Option JStr) :
    Except Unit (Option Session) :=
  match cookie with
  | none => .ok none
  | some c =>
    match cookieMatch c with
    | none => .ok none
    | some m =>
      let parts := cookieParts m
      let token := (parts.headD []).headD []
      if token = [] then .ok none
      else
        match parts.find? (fun part => part.headD [] == expiresKey) with
        | none => .error ()
        | some part => .ok (some { token := token, expires := parseDate (part.getD 1 []) })

/-- `isValid(session)` from `src/index.js`: `!session?.expires` is falsy for
a missing record and for `expires === 0`; otherwise the record is valid
when `!(Date.now() > session.expires)`. -/
def isValid (now : Int) : Option Session → Bool
  | none => false
  | some s => if s.expires = 0 then false else !(decide (now > s.expires))

/-- A credential pair `{username, password}`. -/
structure Credentials where
  username : JStr
  password : JStr
deriving DecidableEq

/-- The WHATWG `URL` object of the external URL library, restricted to the
components the source reads or writes (`username`, `password`, `pathname`
and the serialized origin parts). -/
structure URLRec where
  scheme : JStr
  username : JStr
  password : JStr
  host : JStr
  port : JStr
  pathname : JStr
deriving DecidableEq

/-- WHATWG URL serialization (`url.toString()`): userinfo is included when
username or password is nonempty, the password part only when nonempty. -/
def urlToString (u : URLRec) : JStr :=
  u.scheme ++ "://".toList ++
    (if u.username = [] ∧ u.password = [] then []
     else u.username ++ (if u.password = [] then [] else ':' :: u.password) ++ ['@']) ++
    u.host ++ (if u.port = [] then [] else ':' :: u.port) ++ u.pathname

/-- The connection descriptor (`db` / `opts` in the source): the database
URL `name` (kept in parsed form, see `URLRec`), the optional credential
pair, the optional `auth` option and the optional explicit session token. -/
structure DB where
  name : URLRec
  credentials : Option Credentials
  auth : Option Credentials
  session : Option JStr
deriving DecidableEq

/-- `getSessionUrl(db)`: parse `db.name`, set `pathname = '/_session'`,
serialize. -/
def getSessionUrl (db : DB) : JStr :=
  urlToString { db.name with pathname := "/_session".toList }

/-- JS template-literal rendering of a possibly-`undefined` string:
`${undefined}` prints as `"undefined"`. -/
def jsUndefOr : Option JStr → JStr
  | none => "undefined".toList
  | some s => s

/-- The rendering of `${db.credentials?.username}`. -/
def renderedUsername (db : DB) : JStr := jsUndefOr (db.credentials.map (fun c => c.username))

/-- The rendering of `${db.credentials?.password}`. -/
def renderedPassword (db : DB) : JStr := jsUndefOr (db.credentials.map (fun c => c.password))

/-- The rendering of `${db.session}`. -/
def renderedSession (db : DB) : JStr := jsUndefOr db.session

/-- `getSessionKey(db)`: the template literal
`${db.credentials?.username}:${db.credentials?.password}:${db.session}:${sessionUrl}`. -/
def getSessionKey (db : DB) : JStr :=
  renderedUsername db ++
    ':' :: (renderedPassword db ++
      ':' :: (renderedSession db ++ ':' :: getSessionUrl db))

/-- `Number.MAX_SAFE_INTEGER`. -/
def maxSafeInteger : Int := 2 ^ 53 - 1

/-- An outgoing HTTP request.  `isAuth` records which call site issued it:
`true` for the authentication `POST` to `/_session` inside `authenticate`,
`false` for a data request of the wrapped `db.fetch`. -/
structure Request where
  isAuth : Bool
  url : JStr
  cookie : Option JStr
  body : Option JStr
deriving DecidableEq

/-- An HTTP response as the decorator consumes it: `response.status` and
`response.headers.get('set-cookie')`. -/
structure Response where
  status : Nat
  setCookie : Option JStr
deriving DecidableEq

/-- A cache slot of the module-level `sessions` object.  In sequential
execution a stored promise is settled by the time it is next read, so an
entry is either a settled value (`undefined` or a session record — a plain
record stored by `setSession` behaves identically under `await`) or a
rejected promise, whose `await` rethrows. -/
inductive CacheEntry
  | settled (v : Option Session)
  | rejected
deriving DecidableEq

/-- Shared mutable world: the `sessions` cache plus the ordered log of all
requests issued through `db.originalFetch`. -/
structure St where
  sessions : JStr → Option CacheEntry
  log : List Request

/-- The underlying transport (`db.originalFetch`): a deterministic server
that answers the current request given the traffic so far. -/
abbrev Server := List Request → Request → Response

/-- The state before any request: empty cache, empty log. -/
def emptySt : St := { sessions := fun _ => none, log := [] }

/-- Store a cache entry under a key (`sessions[sessionKey] = ...`). -/
def setCache (st : St) (k : JStr) (e : CacheEntry) : St :=
  { st with sessions := fun k' => if k' = k then some e else st.sessions k' }

/-- Issue a request through the underlying transport, logging it. -/
def doRequest (server : Server) (st : St) (req : Request) : St × Response :=
  ({ st with log := st.log ++ [req] }, server st.log req)

/-- `setSession(db, session)`: store the record when it is truthy and
return it; return `undefined` otherwise. -/
def setSession (db : DB) (st : St) (sess : Option Session) : St :=
  match sess with
  | some s => setCache st (getSessionKey db) (.settled (some s))
  | none => st

/-- `updateSession(db, response)`: parse the response cookie and store it;
propagates the parser's exception. -/
def updateSession (parseDate : JStr → Int) (db : DB) (st : St) (resp : Response) :
    St × Except Unit (Option Session) :=
  match parseCookie parseDate resp.setCookie with
  | .error e => (st, .error e)
  | .ok sess => (setSession db st sess, .ok sess)

/-- `invalidateSession(db)`: `delete sessions[getSessionKey(db)]`. -/
def invalidateSession (db : DB) (st : St) : St :=
  { st with sessions := fun k => if k = getSessionKey db then none else st.sessions k }

/-- The JSON body `JSON.stringify({name, password})` of the authentication
request (escaping of quotes inside the fields is not modelled; no claim
depends on the body). -/
def authBody (c : Credentials) : JStr :=
  "\x7b\"name\":\"".toList ++ c.username ++ "\",\"password\":\"".toList ++
    c.password ++ "\"\x7d".toList

/-- The authentication request `POST {sessionUrl}` issued by `authenticate`. -/
def authRequest (db : DB) (c : Credentials) : Request :=
  { isAuth := true, url := getSessionUrl db, cookie := none, body := some (authBody c) }

/-- `authenticate(db)`: no-op without credentials (or with an empty
username); otherwise one `POST` to the session URL through the original
transport, fed into `updateSession`. -/
def authenticate (server : Server) (parseDate : JStr → Int) (db : DB) (st : St) :
    St × Except Unit (Option Session) :=
  match db.credentials with
  | none => (st, .ok none)
  | some c =>
    if c.username = [] then (st, .ok none)
    else
      match doRequest server st (authRequest db c) with
      | (st1, resp) => updateSession parseDate db st1 resp

/-- The miss/expired path of `getValidSession`:
`sessions[sessionKey] = authenticate(db); return sessions[sessionKey]`.
The pending promise is stored before it is awaited (`settled none` is what
it settles to unless `setSession` inside `authenticate` overwrites the
entry with the parsed record); when `authenticate` throws, the stored
promise rejects. -/
def installAndAuthenticate (server : Server) (parseDate : JStr → Int) (db : DB) (st : St) :
    St × Except Unit (Option Session) :=
  let key := getSessionKey db
  match authenticate server parseDate db (setCache st key (.settled none)) with
  | (st1, .ok v) => (st1, .ok v)
  | (st1, .error e) => (setCache st1 key .rejected, .error e)

/-- `getValidSession(db)`: on a truthy cache entry, await it (rethrowing a
stored rejection) and return the record when still valid; otherwise install
a fresh authentication attempt. -/
def getValidSession (server : Server) (parseDate : JStr → Int) (now : Int) (db : DB)
    (st : St) : St × Except Unit (Option Session) :=
  match st.sessions (getSessionKey db) with
  | none => installAndAuthenticate server parseDate db st
  | some .rejected => (st, .error ())
  | some (.settled v) =>
    if isValid now v then (st, .ok v)
    else installAndAuthenticate server parseDate db st

/-- Result of a `db.fetch` call: a returned response, a thrown exception,
or fuel exhaustion (the source retries by unbounded recursion, so the model
bounds it by explicit fuel). -/
inductive FetchResult
  | ok (r : Response)
  | crash
  | outOfFuel
deriving DecidableEq

/-- The `Cookie` header of `opts.headers` after step (b) of the wrapped
fetch: `opts.headers.set('Cookie', ...)` overwrites it when a session was
obtained; otherwise the previous header (if any) is left in place. -/
def nextCookie (prevCookie : Option JStr) : Option Session → Option JStr
  | some s => some (sessionCookieName ++ '=' :: s.token)
  | none => prevCookie

/-- The outgoing data request of the wrapped fetch. -/
def dataRequest (url : JStr) (ck : Option JStr) : Request :=
  { isAuth := false, url := url, cookie := ck, body := none }

/-- The wrapped `db.fetch(url, opts)` from `src/index.js`.  `prevCookie`
is the `Cookie` header currently sitting in the (mutated) `opts.headers`:
the source only overwrites it when a session was obtained, and the 401
retry re-passes the same `opts`. -/
def dbFetch (server : Server) (parseDate : JStr → Int) (now : Int) (db : DB) (url : JStr) :
    Option JStr → Nat → St → St × FetchResult
  | _, 0, st => (st, .outOfFuel)
  | prevCookie, Nat.succ fuel, st =>
    match getValidSession server parseDate now db st with
    | (st1, .error _) => (st1, .crash)
    | (st1, .ok session) =>
      match doRequest server st1 (dataRequest url (nextCookie prevCookie session)) with
      | (st2, resp) =>
        if resp.status = 401 ∧ session.isSome then
          dbFetch server parseDate now db url (nextCookie prevCookie session) fuel
            (invalidateSession db st2)
        else
          match updateSession parseDate db st2 resp with
          | (st3, .error _) => (st3, .crash)
          | (st3, .ok _) => (st3, .ok resp)

/-- The descriptor mutations of `extractAuth(opts)`: copy `opts.auth` into
`opts.credentials` (deleting `opts.auth`); when the URL carries a (truthy)
username, overwrite the credentials with the userinfo pair and strip the
userinfo from `opts.name`. -/
def normalizeOpts (opts : DB) : DB :=
  let o1 : DB :=
    match opts.auth with
    | some a => { opts with credentials := some a, auth := none }
    | none => opts
  if o1.name.username = [] then o1
  else
    { o1 with
      credentials := some { username := o1.name.username, password := o1.name.password },
      name := { o1.name with username := [], password := [] } }

/-- `extractAuth(opts)`: the descriptor mutations of `normalizeOpts`, then,
when a (truthy) explicit session token is present, pre-seed the cache with
`{token, expires: Number.MAX_SAFE_INTEGER}`. -/
def extractAuth (opts : DB) (st : St) : DB × St :=
  let o2 := normalizeOpts opts
  match o2.session with
  | some tok =>
    if tok = [] then (o2, st)
    else (o2, setSession o2 st (some { token := tok, expires := maxSafeInteger }))
  | none => (o2, st)

/-!
Concurrent model of `getValidSession` under the cooperative event loop.

`K` callers invoke the wrapped `db.fetch` on the same descriptor (one
session key, a descriptor with credentials).  Each task runs atomically
between the `await` points of the source; the steps below are exactly
those segments:

* `startMiss` — lookup finds no entry; `authenticate(db)` runs
  synchronously up to its `fetch` (issuing the authentication request) and
  the pending promise is stored, all before any suspension.
* `startHitPending` / `startHitSettled` — lookup finds a truthy entry and
  suspends on `await sessions[sessionKey]` (awaiting a plain value also
  suspends for one microtask).
* `resolve` — the network answers an authentication request: the
  continuation inside `authenticate` runs `updateSession`/`setSession`
  (overwriting the entry with the parsed record when truthy) and the
  promise settles, in one microtask.
* `resumeHit…` — a hit-path waiter resumes: on a valid record it returns
  it; otherwise it falls through and installs a new authentication
  (issuing another request) in the same segment.
* `resumeMiss` — the installer path returns the awaited value with no
  validity check (`return sessions[sessionKey]`).
* `dataCall` — `db.fetch` resumes with the session and issues the data
  request, attaching `AuthSession=<token>` when a session was obtained.
-/

/-- Control state of one concurrent `db.fetch` task, up to its data call. -/
inductive TaskState
  | start
  | waitingHitP (pid : Nat)
  | waitingHitV (v : Option Session)
  | waitingMiss (pid : Nat)
  | haveSession (v : Option Session)
  | dataIssued (cookie : Option JStr)
deriving DecidableEq

/-- A cache slot in the concurrent model: a stored authentication promise
(identified by the request it belongs to) or a settled plain value. -/
inductive CEntry
  | pending (pid : Nat)
  | settled (v : Option Session)
deriving DecidableEq

/-- Global state of the concurrent model: the task pool, the single cache
slot for the shared session key, the next promise id, the resolution state
of each promise, the number of authentication requests issued so far and
the cookies of the data requests issued so far (in order). -/
structure CSt where
  tasks : List TaskState
  cache : Option CEntry
  nextP : Nat
  resolved : Nat → Option (Option Session)
  authReqs : Nat
  dataLog : List (Option JStr)

/-- The `Cookie` header attached for a session value (`none` when no
session was obtained and the caller supplied no cookie of its own). -/
def attachedCookie : Option Session → Option JStr
  | some s => some (sessionCookieName ++ '=' :: s.token)
  | none => none

/-- One event-loop step.  `authResult` is the session value every
authentication attempt settles to (the server's response fed through
`parseCookie`/`updateSession`). -/
inductive Step (now : Int) (authResult : Option Session) : CSt → CSt → Prop
  | startMiss (s : CSt) (i : Nat) :
      s.tasks.get? i = some .start → s.cache = none →
      Step now authResult s
        { s with
          tasks := s.tasks.set i (.waitingMiss s.nextP),
          cache := some (.pending s.nextP),
          nextP := s.nextP + 1,
          authReqs := s.authReqs + 1 }
  | startHitPending (s : CSt) (i pid : Nat) :
      s.tasks.get? i = some .start → s.cache = some (.pending pid) →
      Step now authResult s { s with tasks := s.tasks.set i (.waitingHitP pid) }
  | startHitSettled (s : CSt) (i : Nat) (v : Option Session) :
      s.tasks.get? i = some .start → s.cache = some (.settled v) →
      Step now authResult s { s with tasks := s.tasks.set i (.waitingHitV v) }
  | resolve (s : CSt) (pid : Nat) :
      pid < s.nextP → s.resolved pid = none →
      Step now authResult s
        { s with
          resolved := fun q => if q = pid then some authResult else s.resolved q,
          cache :=
            match authResult with
            | some sess => some (.settled (some sess))
            | none => s.cache }
  | resumeMiss (s : CSt) (i pid : Nat) (v : Option Session) :
      s.tasks.get? i = some (.waitingMiss pid) → s.resolved pid = some v →
      Step now authResult s { s with tasks := s.tasks.set i (.haveSession v) }
  | resumeHitPValid (s : CSt) (i pid : Nat) (v : Option Session) :
      s.tasks.get? i = some (.waitingHitP pid) → s.resolved pid = some v →
      isValid now v = true →
      Step now authResult s { s with tasks := s.tasks.set i (.haveSession v) }
  | resumeHitPInvalid (s : CSt) (i pid : Nat) (v : Option Session) :
      s.tasks.get? i = some (.waitingHitP pid) → s.resolved pid = some v →
      isValid now v = false →
      Step now authResult s
        { s with
          tasks := s.tasks.set i (.waitingMiss s.nextP),
          cache := some (.pending s.nextP),
          nextP := s.nextP + 1,
          authReqs := s.authReqs + 1 }
  | resumeHitVValid (s : CSt) (i : Nat) (v : Option Session) :
      s.tasks.get? i = some (.waitingHitV v) → isValid now v = true →
      Step now authResult s { s with tasks := s.tasks.set i (.haveSession v) }
  | resumeHitVInvalid (s : CSt) (i : Nat) (v : Option Session) :
      s.tasks.get? i = some (.waitingHitV v) → isValid now v = false →
      Step now authResult s
        { s with
          tasks := s.tasks.set i (.waitingMiss s.nextP),
          cache := some (.pending s.nextP),
          nextP := s.nextP + 1,
          authReqs := s.authReqs + 1 }
  | dataCall (s : CSt) (i : Nat) (v : Option Session) :
      s.tasks.get? i = some (.haveSession v) →
      Step now authResult s
        { s with
          tasks := s.tasks.set i (.dataIssued (attachedCookie v)),
          dataLog := s.dataLog ++ [attachedCookie v] }

/-- The initial pool: `K` callers about to enter `db.fetch`, no cache
entry, no traffic yet. -/
def initPool (K : Nat) : CSt :=
  { tasks := List.replicate K .start,
    cache := none,
    nextP := 0,
    resolved := fun _ => none,
    authReqs := 0,
    dataLog := [] }

/-- Single-flight invariant for a pool started on an *empty* cache slot,
when every authentication resolves to the (valid) session `s0`: either
nothing has happened yet, or exactly one authentication request was ever
issued (promise id 0) and every task is in a state belonging to that one
flight, every logged data call carrying `s0`'s cookie. -/
def CInv (s0 : Session) (s : CSt) : Prop :=
  (s.authReqs = 0 ∧ s.cache = none ∧ s.nextP = 0 ∧
    (∀ pid, s.resolved pid = none) ∧
    (∀ t ∈ s.tasks, t = .start) ∧ s.dataLog = []) ∨
  (s.authReqs = 1 ∧ s.nextP = 1 ∧
    ((s.resolved 0 = none ∧ s.cache = some (.pending 0)) ∨
     (s.resolved 0 = some (some s0) ∧ s.cache = some (.settled (some s0)))) ∧
    (∀ t ∈ s.tasks, t = .start ∨ t = .waitingHitP 0 ∨ t = .waitingMiss 0 ∨
      t = .waitingHitV (some s0) ∨ t = .haveSession (some s0) ∨
      t = .dataIssued (attachedCookie (some s0))) ∧
    (∀ c ∈ s.dataLog, c = attachedCookie (some s0)))

/-! Concrete scenario inputs used by counterexamples and witnesses. -/

/-- A sample database URL, `http://h/db`. -/
def urlEx : URLRec :=
  { scheme := "http".toList, username := [], password := [],
    host := "h".toList, port := [], pathname := "/db".toList }

/-- A descriptor with an explicit credential pair. -/
def dbCred : DB :=
  { name := urlEx,
    credentials := some { username := "u".toList, password := "p".toList },
    auth := none, session := none }

/-- A date parser placing every parsed `Expires` at timestamp 1000. -/
def pdOne : JStr → Int := fun _ => 1000

/-- A server that answers every authentication request with a fresh valid
session cookie and every data request with `401`. -/
def server401 : Server := fun _ req =>
  if req.isAuth then
    { status := 200, setCookie := some ("AuthSession=tok; Expires=future".toList) }
  else { status := 401, setCookie := none }

/-- A server that answers every request with `200` and a (rotated) session
cookie. -/
def serverRotate : Server := fun _ _ =>
  { status := 200, setCookie := some ("AuthSession=t2; Expires=future".toList) }

/-- A data request URL used in concrete runs. -/
def urlData : JStr := "http://h/db/_all_docs".toList

/-- A cache state holding, for `dbCred`, a settled record expiring at
timestamp 5. -/
def stExpire5 : St :=
  setCache emptySt (getSessionKey dbCred) (.settled (some { token := "t".toList, expires := 5 }))

/-- Descriptor whose username contains the `:` delimiter. -/
def dbColonU : DB :=
  { name := urlEx, credentials := some { username := "a:b".toList, password := "c".toList },
    auth := none, session := none }

/-- Descriptor whose password contains the `:` delimiter. -/
def dbColonP : DB :=
  { name := urlEx, credentials := some { username := "a".toList, password := "b:c".toList },
    auth := none, session := none }

/-- Descriptor for user `alice`. -/
def dbAlice : DB :=
  { name := urlEx, credentials := some { username := "alice".toList, password := "pw".toList },
    auth := none, session := none }

/-- Descriptor for user `bob`, same server and password as `dbAlice`. -/
def dbBob : DB :=
  { name := urlEx, credentials := some { username := "bob".toList, password := "pw".toList },
    auth := none, session := none }

/-- The expired record of the C1 counterexample pool. -/
def oldSession : Session := { token := "old".toList, expires := 5 }

/-- The fresh session every authentication resolves to in the C1
counterexample. -/
def newSession : Session := { token := "new".toList, expires := 100 }

/-- Two concurrent callers starting on a cache that holds only an expired
settled record. -/
def cexPool : CSt :=
  { tasks := [.start, .start],
    cache := some (.settled (some oldSession)),
    nextP := 0,
    resolved := fun _ => none,
    authReqs := 0,
    dataLog := [] }

/-- The fresh valid session of the C1 witness run. -/
def sessW : Session := { token := "t".toList, expires := 7 }

/-- The pool state after a completed single flight of caller 0 out of two
concurrent callers: one authentication was issued and resolved, caller 0
has issued its data call with the session's cookie, caller 1 has not
started yet. -/
def flightState (s0 : Session) : CSt :=
  { tasks := [.dataIssued (attachedCookie (some s0)), .start],
    cache := some (.settled (some s0)),
    nextP := 1,
    resolved := fun q => if q = 0 then some (some s0) else none,
    authReqs := 1,
    dataLog := [attachedCookie (some s0)] }

/-! Helper lemmas about the string model. -/

theorem beginsWith_append_self (p r : JStr) : beginsWith p (p ++ r) = true := by
  induction p with
  | nil => rfl
  | cons a ps ih => simp [beginsWith, ih]

theorem afterFirst_append_self (p r : JStr) (hp : p ≠ []) :
    afterFirst p (p ++ r) = some r := by
  cases p with
  | nil => exact absurd rfl hp
  | cons a ps =>
    have hb : beginsWith (a :: ps) (a :: (ps ++ r)) = true :=
      beginsWith_append_self (a :: ps) r
    show (if beginsWith (a :: ps) (a :: (ps ++ r)) = true
          then some (List.drop (a :: ps).length (a :: (ps ++ r)))
          else afterFirst (a :: ps) (ps ++ r)) = some r
    rw [if_pos hb]
    exact congrArg some (List.drop_left (a :: ps) r)

theorem splitChar_append_cons (sep : Char) (v r : JStr) (hv : sep ∉ v) :
    splitChar sep (v ++ sep :: r) = v :: splitChar sep r := by
  induction v with
  | nil => simp [splitChar]
  | cons a vs ih =>
    have ha : a ≠ sep := fun h => hv (h ▸ List.mem_cons_self a vs)
    have hvs : sep ∉ vs := fun h => hv (List.mem_cons_of_mem a h)
    show splitChar sep (a :: (vs ++ sep :: r)) = (a :: vs) :: splitChar sep r
    simp only [splitChar, if_neg (fun h => ha h)]
    rw [ih hvs]

theorem splitChar_eq_single (sep : Char) (l : JStr) (hl : sep ∉ l) :
    splitChar sep l = [l] := by
  induction l with
  | nil => rfl
  | cons a ls ih =>
    have ha : a ≠ sep := fun h => hl (h ▸ List.mem_cons_self a ls)
    have hls : sep ∉ ls := fun h => hl (List.mem_cons_of_mem a h)
    simp only [splitChar, if_neg (fun h => ha h), ih hls]

theorem splitChar_head (sep : Char) (l : JStr) :
    ∃ t, splitChar sep l = l.takeWhile (fun a => a != sep) :: t := by
  induction l with
  | nil => exact ⟨[], rfl⟩
  | cons a ls ih =>
    by_cases ha : a = sep
    · subst ha
      refine ⟨splitChar a ls, ?_⟩
      simp [splitChar, List.takeWhile]
    · obtain ⟨t, ht⟩ := ih
      refine ⟨t, ?_⟩
      simp only [splitChar, if_neg ha, ht, List.takeWhile]
      rw [bne_iff_ne.mpr ha]

theorem takeWhile_all (p : Char → Bool) (l : JStr) (h : ∀ a ∈ l, p a = true) :
    l.takeWhile p = l :=
  List.takeWhile_eq_self_iff.mpr h

theorem trimRight_append (x d : JStr)
    (hx : x.reverse.dropWhile Char.isWhitespace = x.reverse) :
    trimRight (x ++ d) = x ++ trimRight d := by
  unfold trimRight
  rw [List.reverse_append, List.dropWhile_append]
  by_cases hd : (d.reverse.dropWhile Char.isWhitespace).isEmpty
  · rw [if_pos hd, hx, List.reverse_reverse]
    rw [List.isEmpty_iff] at hd
    simp [hd]
  · rw [if_neg hd]
    simp

theorem append_cons_inj (c : Char) :
    ∀ (u1 u2 r1 r2 : JStr), c ∉ u1 → c ∉ u2 →
      u1 ++ c :: r1 = u2 ++ c :: r2 → u1 = u2 ∧ r1 = r2 := by
  intro u1
  induction u1 with
  | nil =>
    intro u2 r1 r2 _ h2 heq
    cases u2 with
    | nil => simpa using heq
    | cons b us =>
      simp only [List.nil_append, List.cons_append, List.cons.injEq] at heq
      exact absurd (heq.1 ▸ List.mem_cons_self b us) h2
  | cons a us ih =>
    intro u2 r1 r2 h1 h2 heq
    cases u2 with
    | nil =>
      simp only [List.nil_append, List.cons_append, List.cons.injEq] at heq
      exact absurd (heq.1.symm ▸ List.mem_cons_self a us) h1
    | cons b vs =>
      simp only [List.cons_append, List.cons.injEq] at heq
      obtain ⟨hab, htail⟩ := heq
      have h1' : c ∉ us := fun h => h1 (List.mem_cons_of_mem a h)
      have h2' : c ∉ vs := fun h => h2 (List.mem_cons_of_mem b h)
      obtain ⟨hu, hr⟩ := ih vs r1 r2 h1' h2' htail
      exact ⟨by rw [hab, hu], hr⟩

/-! Helper lemmas about the sequential model. -/

theorem setCache_log (st : St) (k : JStr) (e : CacheEntry) :
    (setCache st k e).log = st.log := rfl

theorem invalidateSession_log (db : DB) (st : St) :
    (invalidateSession db st).log = st.log := rfl

theorem setSession_log (db : DB) (st : St) (sess : Option Session) :
    (setSession db st sess).log = st.log := by
  cases sess <;> rfl

theorem updateSession_log (pd : JStr → Int) (db : DB) (st : St) (resp : Response) :
    (updateSession pd db st resp).1.log = st.log := by
  unfold updateSession
  cases hp : parseCookie pd resp.setCookie with
  | error e => rfl
  | ok sess => exact setSession_log db st sess

theorem updateSession_ok (pd : JStr → Int) (db : DB) (st : St) (resp : Response)
    (st' : St) (sess : Option Session) (h : updateSession pd db st resp = (st', .ok sess)) :
    parseCookie pd resp.setCookie = .ok sess ∧ st' = setSession db st sess := by
  unfold updateSession at h
  cases hp : parseCookie pd resp.setCookie with
  | error e => rw [hp] at h; cases h
  | ok s2 =>
    rw [hp] at h
    injection h with h1 h2
    injection h2 with h3
    exact ⟨congrArg Except.ok h3, h1.symm.trans (congrArg (setSession db st) h3)⟩

theorem authenticate_log (server : Server) (pd : JStr → Int) (db : DB) (st : St) :
    ∃ ext, (authenticate server pd db st).1.log = st.log ++ ext := by
  cases hc : db.credentials with
  | none => exact ⟨[], by simp [authenticate, hc]⟩
  | some c =>
    by_cases hu : c.username = []
    · exact ⟨[], by simp [authenticate, hc, hu]⟩
    · refine ⟨[authRequest db c], ?_⟩
      simp only [authenticate, hc]
      rw [if_neg hu]
      show (updateSession pd db { st with log := st.log ++ [authRequest db c] }
              (server st.log (authRequest db c))).1.log = st.log ++ [authRequest db c]
      rw [updateSession_log]

theorem installAndAuthenticate_log (server : Server) (pd : JStr → Int) (db : DB) (st : St) :
    ∃ ext, (installAndAuthenticate server pd db st).1.log = st.log ++ ext := by
  obtain ⟨ext, hext⟩ :=
    authenticate_log server pd db (setCache st (getSessionKey db) (.settled none))
  rw [setCache_log] at hext
  rcases hA : authenticate server pd db (setCache st (getSessionKey db) (.settled none))
    with ⟨st1, res⟩
  rw [hA] at hext
  cases res with
  | ok v =>
    refine ⟨ext, ?_⟩
    simp only [installAndAuthenticate, hA]
    exact hext
  | error e =>
    refine ⟨ext, ?_⟩
    simp only [installAndAuthenticate, hA]
    exact hext

theorem getValidSession_log (server : Server) (pd : JStr → Int) (now : Int) (db : DB)
    (st : St) : ∃ ext, (getValidSession server pd now db st).1.log = st.log ++ ext := by
  cases hs : st.sessions (getSessionKey db) with
  | none =>
    obtain ⟨ext, hext⟩ := installAndAuthenticate_log server pd db st
    refine ⟨ext, ?_⟩
    simp only [getValidSession, hs]
    exact hext
  | some e =>
    cases e with
    | rejected => exact ⟨[], by simp [getValidSession, hs]⟩
    | settled v =>
      by_cases hv : isValid now v = true
      · exact ⟨[], by simp [getValidSession, hs, hv]⟩
      · obtain ⟨ext, hext⟩ := installAndAuthenticate_log server pd db st
        refine ⟨ext, ?_⟩
        simp only [getValidSession, hs, if_neg hv]
        exact hext

theorem dbFetch_log (server : Server) (pd : JStr → Int) (now : Int) (db : DB) (url : JStr) :
    ∀ (fuel : Nat) (pc : Option JStr) (st : St),
      ∃ ext, (dbFetch server pd now db url pc fuel st).1.log = st.log ++ ext := by
  intro fuel
  induction fuel with
  | zero =>
    intro pc st
    exact ⟨[], (List.append_nil _).symm⟩
  | succ fuel ih =>
    intro pc st
    obtain ⟨e1, h1⟩ := getValidSession_log server pd now db st
    rcases hg : getValidSession server pd now db st with ⟨st1, res⟩
    rw [hg] at h1
    cases res with
    | error e =>
      refine ⟨e1, ?_⟩
      simp only [dbFetch, hg]
      exact h1
    | ok session =>
      by_cases hif :
          (server st1.log (dataRequest url (nextCookie pc session))).status = 401 ∧
            session.isSome = true
      · obtain ⟨e2, h2⟩ := ih (nextCookie pc session)
          (invalidateSession db
            { st1 with log := st1.log ++ [dataRequest url (nextCookie pc session)] })
        refine ⟨e1 ++ ([dataRequest url (nextCookie pc session)] ++ e2), ?_⟩
        simp only [dbFetch, hg, doRequest]
        rw [if_pos hif, h2]
        rw [invalidateSession_log]
        show st1.log ++ [dataRequest url (nextCookie pc session)] ++ e2 = _
        rw [h1, List.append_assoc, List.append_assoc]
      · refine ⟨e1 ++ [dataRequest url (nextCookie pc session)], ?_⟩
        simp only [dbFetch, hg, doRequest]
        rw [if_neg hif]
        have hu := updateSession_log pd db
          { st1 with log := st1.log ++ [dataRequest url (nextCookie pc session)] }
          (server st1.log (dataRequest url (nextCookie pc session)))
        rcases hup : updateSession pd db
            { st1 with log := st1.log ++ [dataRequest url (nextCookie pc session)] }
            (server st1.log (dataRequest url (nextCookie pc session))) with ⟨st3, r3⟩
        rw [hup] at hu
        cases r3 with
        | error e =>
          show st3.log = _
          rw [hu, h1, List.append_assoc]
        | ok s3 =>
          show st3.log = _
          rw [hu, h1, List.append_assoc]

theorem isValid_some (now : Int) (s : Session) :
    isValid now (some s) = true ↔ (s.expires ≠ 0 ∧ now ≤ s.expires) := by
  unfold isValid
  by_cases h0 : s.expires = 0
  · simp [h0]
  · simp [h0, not_lt]

theorem setCache_get_same (st : St) (k : JStr) (e : CacheEntry) :
    (setCache st k e).sessions k = some e := by
  simp [setCache]

theorem authenticate_log_cred (server : Server) (pd : JStr → Int) (db : DB) (st : St)
    (c : Credentials) (hc : db.credentials = some c) (hu : c.username ≠ []) :
    (authenticate server pd db st).1.log = st.log ++ [authRequest db c] := by
  simp only [authenticate, hc]
  rw [if_neg hu]
  show (updateSession pd db { st with log := st.log ++ [authRequest db c] }
          (server st.log (authRequest db c))).1.log = st.log ++ [authRequest db c]
  rw [updateSession_log]

theorem installAndAuthenticate_log_cred (server : Server) (pd : JStr → Int) (db : DB)
    (st : St) (c : Credentials) (hc : db.credentials = some c) (hu : c.username ≠ []) :
    (installAndAuthenticate server pd db st).1.log = st.log ++ [authRequest db c] := by
  have h := authenticate_log_cred server pd db
    (setCache st (getSessionKey db) (.settled none)) c hc hu
  rw [setCache_log] at h
  rcases hA : authenticate server pd db (setCache st (getSessionKey db) (.settled none))
    with ⟨st1, res⟩
  rw [hA] at h
  cases res with
  | ok v =>
    simp only [installAndAuthenticate, hA]
    exact h
  | error e =>
    simp only [installAndAuthenticate, hA]
    exact h

theorem parseCookie_eq (pd : JStr → Int) (c m : JStr) (found : List JStr)
    (hm : cookieMatch c = some m)
    (htok : ((cookieParts m).headD []).headD [] ≠ [])
    (hfind : (cookieParts m).find? (fun part => part.headD [] == expiresKey) = some found) :
    parseCookie pd (some c) =
      .ok (some { token := ((cookieParts m).headD []).headD [],
                  expires := pd (found.getD 1 []) }) := by
  simp only [parseCookie, hm]
  rw [if_neg htok, hfind]

theorem extractAuth_fst (opts : DB) (st : St) :
    (extractAuth opts st).1 = normalizeOpts opts := by
  cases hs : (normalizeOpts opts).session with
  | none => simp [extractAuth, hs]
  | some tok =>
    by_cases ht : tok = []
    · simp [extractAuth, hs, ht]
    · simp [extractAuth, hs, ht]

theorem normalizeOpts_session (opts : DB) :
    (normalizeOpts opts).session = opts.session := by
  unfold normalizeOpts
  cases opts.auth with
  | none =>
    by_cases hu : opts.name.username = [] <;> simp [hu]
  | some a =>
    by_cases hu : opts.name.username = [] <;> simp [hu]

/-! ## The claims -/

/-- C3: the claim says a session cookie carrying a nonempty token but no
`Expires` attribute parses, without crashing, to a record treated as
already expired.  In the code,
`parts.find(part => part[0] === 'Expires')` yields `undefined` and the
subsequent `[1]` access throws a `TypeError`: the parser crashes
(`Except.error`) instead of failing closed, for every date parser. -/
theorem c3_crash_on_missing_expires (pd : JStr → Int) :
    parseCookie pd (some ("AuthSession=abc; Path=/".toList)) = .error () := rfl

/-- C2: the claim says a 401 on a request that carried a session cookie
triggers at most one retry and a second consecutive 401 is returned as-is,
for every sequence of server responses.  Against a server that answers
every authentication with a fresh valid session cookie and every data
request with 401 (`server401`), the literal code retries by unconditional
recursion: given fuel for four attempts it issues four data requests and
four authentication requests and still has not returned, where the claim
mandates termination after the second data request. -/
theorem c2_unbounded_retry :
    (dbFetch server401 pdOne 0 dbCred urlData none 4 emptySt).2 = .outOfFuel ∧
    ((dbFetch server401 pdOne 0 dbCred urlData none 4 emptySt).1.log.filter
        (fun r => !r.isAuth)).length = 4 ∧
    ((dbFetch server401 pdOne 0 dbCred urlData none 4 emptySt).1.log.filter
        (fun r => r.isAuth)).length = 4 :=
  ⟨rfl, rfl, rfl⟩

/-- C4 counterexample: the claim says key derivation is injective even when
usernames or passwords contain the delimiter.  The keys of
`{username: "a:b", password: "c"}` and `{username: "a", password: "b:c"}`
(same server) coincide although the descriptors differ in username. -/
theorem c4_counterexample :
    getSessionKey dbColonU = getSessionKey dbColonP ∧
    dbColonU.credentials.map (fun c => c.username) ≠
      dbColonP.credentials.map (fun c => c.username) :=
  ⟨rfl, by decide⟩

/-- C4 amended: identical descriptors always yield identical keys, and —
provided the rendered username, password and session of both descriptors
are free of the `:` delimiter — two keys coincide exactly when the rendered
username, password, session and serialized session URL all coincide (so
distinct users or servers never collide, including prefix usernames).
Without the delimiter-freedom proviso the code's naive concatenation does
collide (`c4_counterexample`). -/
theorem c4_amended (d1 d2 : DB)
    (h1 : ':' ∉ renderedUsername d1) (h2 : ':' ∉ renderedPassword d1)
    (h3 : ':' ∉ renderedSession d1)
    (h4 : ':' ∉ renderedUsername d2) (h5 : ':' ∉ renderedPassword d2)
    (h6 : ':' ∉ renderedSession d2) :
    getSessionKey d1 = getSessionKey d2 ↔
      (renderedUsername d1 = renderedUsername d2 ∧
       renderedPassword d1 = renderedPassword d2 ∧
       renderedSession d1 = renderedSession d2 ∧
       getSessionUrl d1 = getSessionUrl d2) := by
  constructor
  · intro h
    unfold getSessionKey at h
    obtain ⟨hu, h'⟩ := append_cons_inj ':' _ _ _ _ h1 h4 h
    obtain ⟨hp, h''⟩ := append_cons_inj ':' _ _ _ _ h2 h5 h'
    obtain ⟨hs, hurl⟩ := append_cons_inj ':' _ _ _ _ h3 h6 h''
    exact ⟨hu, hp, hs, hurl⟩
  · rintro ⟨hu, hp, hs, hurl⟩
    unfold getSessionKey
    rw [hu, hp, hs, hurl]

/-- C4 witness: `alice` and `bob` against the same server derive different
keys. -/
theorem c4_witness : getSessionKey dbAlice ≠ getSessionKey dbBob := by
  intro h
  have hcomp := (c4_amended dbAlice dbBob (by decide) (by decide) (by decide)
    (by decide) (by decide) (by decide)).mp h
  exact absurd hcomp.1 (by decide)

/-- C5 counterexample: the claim says a cached record is returned without
re-authentication only when `now < expiresAt`, and that at
`now == expiresAt` a fresh authentication is triggered.  With a cached
record expiring at 5 and `now = 5` (descriptor `dbCred` has credentials,
so authentication was available), `getValidSession` returns the cached
record and issues no request at all. -/
theorem c5_counterexample :
    (getValidSession server401 pdOne 5 dbCred stExpire5).2 =
      .ok (some { token := "t".toList, expires := 5 }) ∧
    (getValidSession server401 pdOne 5 dbCred stExpire5).1.log = [] :=
  ⟨rfl, rfl⟩

/-- C5 amended: for a cached settled record, `getValidSession` returns it
unchanged (no request, no state change) exactly when `expiresAt ≠ 0` and
`now ≤ expiresAt` — the boundary `now == expiresAt` still counts as valid;
otherwise (`expiresAt = 0` or strictly past expiry), on a descriptor with
credentials, exactly one fresh authentication request is issued. -/
theorem c5_amended (server : Server) (pd : JStr → Int) (now : Int) (db : DB) (st : St)
    (sess : Session)
    (hentry : st.sessions (getSessionKey db) = some (.settled (some sess))) :
    ((sess.expires ≠ 0 ∧ now ≤ sess.expires) →
      getValidSession server pd now db st = (st, .ok (some sess))) ∧
    ((sess.expires = 0 ∨ sess.expires < now) → ∀ c, db.credentials = some c →
      c.username ≠ [] →
      (getValidSession server pd now db st).1.log = st.log ++ [authRequest db c]) := by
  constructor
  · intro hval
    have hv : isValid now (some sess) = true := (isValid_some now sess).mpr hval
    simp only [getValidSession, hentry, if_pos hv]
  · intro hinv c hc hu
    have hv : isValid now (some sess) ≠ true := by
      intro hh
      rw [isValid_some] at hh
      rcases hinv with h0 | hlt
      · exact hh.1 h0
      · exact absurd hh.2 (not_le.mpr hlt)
    simp only [getValidSession, hentry, if_neg hv]
    exact installAndAuthenticate_log_cred server pd db st c hc hu

/-- C5 witness: at `now = 3 < 5 = expiresAt` the cached record is returned
with the state untouched. -/
theorem c5_witness :
    getValidSession server401 pdOne 3 dbCred stExpire5 =
      (stExpire5, .ok (some { token := "t".toList, expires := 5 })) :=
  (c5_amended server401 pdOne 3 dbCred stExpire5
      { token := "t".toList, expires := 5 } rfl).1 (by decide)

/-- C10: a response with no `set-cookie` header, or whose header does not
contain the named session cookie, or whose session-cookie token is empty,
leaves the session cache (and the whole state) completely unchanged when
fed into `updateSession`, which returns `undefined`. -/
theorem c10_cache_frame (pd : JStr → Int) (db : DB) (st : St) (resp : Response)
    (h : resp.setCookie = none ∨
      (∃ c, resp.setCookie = some c ∧ cookieMatch c = none) ∨
      (∃ c m, resp.setCookie = some c ∧ cookieMatch c = some m ∧
        ((cookieParts m).headD []).headD [] = [])) :
    updateSession pd db st resp = (st, .ok none) := by
  have hp : parseCookie pd resp.setCookie = .ok none := by
    rcases h with h | ⟨c, hc, hm⟩ | ⟨c, m, hc, hm, ht⟩
    · rw [h]; rfl
    · rw [hc]; simp [parseCookie, hm]
    · rw [hc]
      simp only [parseCookie, hm]
      rw [if_pos ht]
  simp [updateSession, hp, setSession]

/-- C10 witness: a cookie-less `200` leaves the empty state untouched. -/
theorem c10_witness :
    updateSession pdOne dbCred emptySt { status := 200, setCookie := none } =
      (emptySt, .ok none) :=
  c10_cache_frame pdOne dbCred emptySt { status := 200, setCookie := none } (Or.inl rfl)

/-- C7: when the descriptor URL carries userinfo (a truthy username),
extraction sets the credential pair to the URL's username/password and
replaces the descriptor URL with the userinfo-stripped URL — the URL that
the session-key derivation (`getSessionKey`) and all later requests see —
while a descriptor with an explicit credential option and no userinfo
keeps its URL unaltered, taking the option verbatim as its credentials. -/
theorem c7_extract (opts : DB) (st : St) :
    (opts.name.username ≠ [] →
      (extractAuth opts st).1.credentials =
          some { username := opts.name.username, password := opts.name.password } ∧
        (extractAuth opts st).1.name = { opts.name with username := [], password := [] }) ∧
    (opts.name.username = [] → ∀ a, opts.auth = some a →
      (extractAuth opts st).1.name = opts.name ∧
        (extractAuth opts st).1.credentials = some a ∧
        (extractAuth opts st).1.auth = none) := by
  rw [extractAuth_fst]
  constructor
  · intro hu
    cases ha : opts.auth with
    | none => constructor <;> simp [normalizeOpts, ha, hu]
    | some a => constructor <;> simp [normalizeOpts, ha, hu]
  · intro hu a ha
    refine ⟨?_, ?_, ?_⟩ <;> simp [normalizeOpts, ha, hu]

/-- C7 witness: a URL with userinfo `u:p@` is stripped and mined for the
credential pair; a descriptor with an `auth` option and a bare URL keeps
its URL. -/
theorem c7_witness :
    (extractAuth
        { name := { urlEx with username := "u".toList, password := "p".toList },
          credentials := none, auth := none, session := none } emptySt).1.name = urlEx ∧
    (extractAuth
        { name := { urlEx with username := "u".toList, password := "p".toList },
          credentials := none, auth := none, session := none } emptySt).1.credentials =
      some { username := "u".toList, password := "p".toList } ∧
    (extractAuth
        { name := urlEx, credentials := none,
          auth := some { username := "u".toList, password := "p".toList },
          session := none } emptySt).1.name = urlEx := by
  refine ⟨?_, ?_, ?_⟩
  · exact ((c7_extract _ emptySt).1 (by decide)).2
  · exact ((c7_extract _ emptySt).1 (by decide)).1
  · exact ((c7_extract _ emptySt).2 (by decide)
      { username := "u".toList, password := "p".toList } rfl).1

theorem dbFetch_succ_log (server : Server) (pd : JStr → Int) (now : Int) (db : DB)
    (url : JStr) (pc : Option JStr) (fuel : Nat) (st st1 : St) (session : Option Session)
    (hgvs : getValidSession server pd now db st = (st1, .ok session)) :
    (∃ ext, (dbFetch server pd now db url pc (fuel + 1) st).1.log =
      st1.log ++ dataRequest url (nextCookie pc session) :: ext) ∧
    ((server st1.log (dataRequest url (nextCookie pc session))).status ≠ 401 →
      (dbFetch server pd now db url pc (fuel + 1) st).1.log =
        st1.log ++ [dataRequest url (nextCookie pc session)]) := by
  have hred : dbFetch server pd now db url pc (fuel + 1) st =
      (if (server st1.log (dataRequest url (nextCookie pc session))).status = 401 ∧
          session.isSome = true then
        dbFetch server pd now db url (nextCookie pc session) fuel
          (invalidateSession db
            { st1 with log := st1.log ++ [dataRequest url (nextCookie pc session)] })
      else
        match updateSession pd db
            { st1 with log := st1.log ++ [dataRequest url (nextCookie pc session)] }
            (server st1.log (dataRequest url (nextCookie pc session))) with
        | (st3, .error _) => (st3, .crash)
        | (st3, .ok _) =>
          (st3, .ok (server st1.log (dataRequest url (nextCookie pc session))))) := by
    simp only [dbFetch, hgvs, doRequest]
  have helse : ((match updateSession pd db
      { st1 with log := st1.log ++ [dataRequest url (nextCookie pc session)] }
      (server st1.log (dataRequest url (nextCookie pc session))) with
    | (st3, Except.error _) => (st3, FetchResult.crash)
    | (st3, Except.ok _) =>
      (st3, FetchResult.ok
        (server st1.log (dataRequest url (nextCookie pc session))))) : St × FetchResult).1.log =
      st1.log ++ [dataRequest url (nextCookie pc session)] := by
    have hl := updateSession_log pd db
      { st1 with log := st1.log ++ [dataRequest url (nextCookie pc session)] }
      (server st1.log (dataRequest url (nextCookie pc session)))
    rcases hup : updateSession pd db
        { st1 with log := st1.log ++ [dataRequest url (nextCookie pc session)] }
        (server st1.log (dataRequest url (nextCookie pc session))) with ⟨st3, r3⟩
    rw [hup] at hl
    cases r3 with
    | error e => exact hl
    | ok s3 => exact hl
  constructor
  · by_cases h401 : (server st1.log (dataRequest url (nextCookie pc session))).status = 401 ∧
        session.isSome = true
    · obtain ⟨ext, hext⟩ := dbFetch_log server pd now db url fuel (nextCookie pc session)
        (invalidateSession db
          { st1 with log := st1.log ++ [dataRequest url (nextCookie pc session)] })
      refine ⟨ext, ?_⟩
      rw [hred, if_pos h401, hext, invalidateSession_log]
      show st1.log ++ [dataRequest url (nextCookie pc session)] ++ ext = _
      rw [List.append_assoc]
      rfl
    · refine ⟨[], ?_⟩
      rw [hred, if_neg h401]
      rw [helse]
  · intro hst
    have h401 : ¬((server st1.log (dataRequest url (nextCookie pc session))).status = 401 ∧
        session.isSome = true) := fun hcon => hst hcon.1
    rw [hred, if_neg h401]
    exact helse

/-- C6: a descriptor carrying an explicit (nonempty) session token is
pre-seeded, under its own session key, with a record expiring at
`Number.MAX_SAFE_INTEGER`; the first wrapped fetch issues the data request
as its very first request — so zero authentication requests precede or
accompany it — attaching exactly `AuthSession=<token>`; when the server
does not answer it with 401, it remains the only request of the call. -/
theorem c6_explicit_session (opts : DB) (server : Server) (pd : JStr → Int) (now : Int)
    (tok url : JStr) (fuel : Nat)
    (hsess : opts.session = some tok) (htok : tok ≠ []) (hnow : now ≤ maxSafeInteger) :
    (extractAuth opts emptySt).2.sessions (getSessionKey (extractAuth opts emptySt).1) =
        some (.settled (some { token := tok, expires := maxSafeInteger })) ∧
    (∃ rest,
      (dbFetch server pd now (extractAuth opts emptySt).1 url none (fuel + 1)
          (extractAuth opts emptySt).2).1.log =
        dataRequest url (some (sessionCookieName ++ '=' :: tok)) :: rest) ∧
    ((server [] (dataRequest url (some (sessionCookieName ++ '=' :: tok)))).status ≠ 401 →
      (dbFetch server pd now (extractAuth opts emptySt).1 url none (fuel + 1)
          (extractAuth opts emptySt).2).1.log =
        [dataRequest url (some (sessionCookieName ++ '=' :: tok))]) := by
  have hns : (normalizeOpts opts).session = some tok :=
    (normalizeOpts_session opts).trans hsess
  have hex : extractAuth opts emptySt =
      (normalizeOpts opts,
        setCache emptySt (getSessionKey (normalizeOpts opts))
          (.settled (some { token := tok, expires := maxSafeInteger }))) := by
    simp only [extractAuth, hns, if_neg htok, setSession]
  rw [hex]
  have hentry : (setCache emptySt (getSessionKey (normalizeOpts opts))
      (.settled (some { token := tok, expires := maxSafeInteger }))).sessions
        (getSessionKey (normalizeOpts opts)) =
      some (.settled (some { token := tok, expires := maxSafeInteger })) :=
    setCache_get_same _ _ _
  have hmax : maxSafeInteger ≠ 0 := by decide
  have hv : isValid now (some { token := tok, expires := maxSafeInteger }) = true :=
    (isValid_some now _).mpr ⟨hmax, hnow⟩
  have hgvs : getValidSession server pd now (normalizeOpts opts)
      (setCache emptySt (getSessionKey (normalizeOpts opts))
        (.settled (some { token := tok, expires := maxSafeInteger }))) =
      (setCache emptySt (getSessionKey (normalizeOpts opts))
        (.settled (some { token := tok, expires := maxSafeInteger })),
       .ok (some { token := tok, expires := maxSafeInteger })) := by
    simp only [getValidSession, hentry, if_pos hv]
  have hmain := dbFetch_succ_log server pd now (normalizeOpts opts) url none fuel _ _ _ hgvs
  have hck : nextCookie none (some { token := tok, expires := maxSafeInteger }) =
      some (sessionCookieName ++ '=' :: tok) := rfl
  have hlog : (setCache emptySt (getSessionKey (normalizeOpts opts))
      (.settled (some { token := tok, expires := maxSafeInteger }))).log = [] := rfl
  rw [hck, hlog] at hmain
  obtain ⟨⟨ext, hext⟩, hno401⟩ := hmain
  refine ⟨hentry, ⟨ext, ?_⟩, ?_⟩
  · rw [hext]
    rfl
  · intro hst
    have := hno401 hst
    rw [this]
    rfl

/-- C8: whenever the wrapped fetch returns a response (any status, cookie
attached or not), if that response carries a parseable session cookie with
a nonempty token, then the final cache holds exactly that record under the
descriptor's key. -/
theorem c8_rotation (server : Server) (pd : JStr → Int) (now : Int) (db : DB) (url : JStr) :
    ∀ (fuel : Nat) (pc : Option JStr) (st st' : St) (r : Response) (s : Session),
      dbFetch server pd now db url pc fuel st = (st', .ok r) →
      parseCookie pd r.setCookie = .ok (some s) →
      st'.sessions (getSessionKey db) = some (.settled (some s)) := by
  intro fuel
  induction fuel with
  | zero =>
    intro pc st st' r s hrun hparse
    simp only [dbFetch] at hrun
    cases hrun
  | succ fuel ih =>
    intro pc st st' r s hrun hparse
    rcases hg : getValidSession server pd now db st with ⟨st1, res⟩
    cases res with
    | error e =>
      rw [show dbFetch server pd now db url pc (fuel + 1) st = (st1, .crash) by
        simp only [dbFetch, hg]] at hrun
      cases hrun
    | ok session =>
      have hred : dbFetch server pd now db url pc (fuel + 1) st =
          (if (server st1.log (dataRequest url (nextCookie pc session))).status = 401 ∧
              session.isSome = true then
            dbFetch server pd now db url (nextCookie pc session) fuel
              (invalidateSession db
                { st1 with log := st1.log ++ [dataRequest url (nextCookie pc session)] })
          else
            match updateSession pd db
                { st1 with log := st1.log ++ [dataRequest url (nextCookie pc session)] }
                (server st1.log (dataRequest url (nextCookie pc session))) with
            | (st3, .error _) => (st3, .crash)
            | (st3, .ok _) =>
              (st3, .ok (server st1.log (dataRequest url (nextCookie pc session))))) := by
        simp only [dbFetch, hg, doRequest]
      rw [hred] at hrun
      by_cases h401 : (server st1.log (dataRequest url (nextCookie pc session))).status = 401 ∧
          session.isSome = true
      · rw [if_pos h401] at hrun
        exact ih (nextCookie pc session) _ st' r s hrun hparse
      · rw [if_neg h401] at hrun
        rcases hup : updateSession pd db
            { st1 with log := st1.log ++ [dataRequest url (nextCookie pc session)] }
            (server st1.log (dataRequest url (nextCookie pc session))) with ⟨st3, r3⟩
        rw [hup] at hrun
        cases r3 with
        | error e => cases hrun
        | ok s3 =>
          injection hrun with hst hr
          injection hr with hr
          subst hst
          subst hr
          obtain ⟨hpc, hset⟩ := updateSession_ok pd db _ _ _ _ hup
          rw [hparse] at hpc
          injection hpc with hpc
          rw [hset, ← hpc]
          show (setSession db _ (some s)).sessions (getSessionKey db) = _
          exact setCache_get_same _ _ _

/-- C6 witness: a concrete descriptor with explicit session token `tok`
is pre-seeded with a never-expiring record under its own key. -/
theorem c6_witness_run :
    (extractAuth
        { name := urlEx, credentials := none, auth := none, session := some ("tok".toList) }
        emptySt).2.sessions
      (getSessionKey
        (extractAuth
          { name := urlEx, credentials := none, auth := none, session := some ("tok".toList) }
          emptySt).1) =
      some (.settled (some { token := "tok".toList, expires := maxSafeInteger })) :=
  (c6_explicit_session
    { name := urlEx, credentials := none, auth := none, session := some ("tok".toList) }
    serverRotate pdOne 0 ("tok".toList) urlData 0 rfl (by decide) (by decide)).1

/-- C9: when the session-cookie value contains an `=`, the parser splits
the value on `=` and returns only the segment before the first `=` as the
token — not the full cookie value.  Stated for a canonical single-line
header `AuthSession=<value>; Expires=<date>` with a trimmed, `;`-free and
newline-free value whose first `=`-segment is nonempty. -/
theorem c9_token_before_eq (pd : JStr → Int) (v d : JStr)
    (hv_nl : '\n' ∉ v) (hv_sc : ';' ∉ v) (hv_tr : trimChars v = v)
    (hv_tok : v.takeWhile (fun a => a != '=') ≠ []) (hv_eq : '=' ∈ v)
    (hd_nl : '\n' ∉ d) (hd_sc : ';' ∉ d) :
    ∃ e, parseCookie pd (some (cookiePat ++ (v ++ ';' :: (" Expires=".toList ++ d)))) =
        .ok (some { token := v.takeWhile (fun a => a != '='), expires := e }) ∧
      v.takeWhile (fun a => a != '=') ≠ v := by
  have hne : v.takeWhile (fun a => a != '=') ≠ v := by
    intro he
    have hall := List.takeWhile_eq_self_iff.mp he
    have := hall '=' hv_eq
    simp at this
  have hmatch : cookieMatch (cookiePat ++ (v ++ ';' :: (" Expires=".toList ++ d))) =
      some (v ++ ';' :: (" Expires=".toList ++ d)) := by
    unfold cookieMatch
    rw [afterFirst_append_self cookiePat _ (by decide)]
    have hall : ∀ a ∈ v ++ ';' :: (" Expires=".toList ++ d), (a != '\n') = true := by
      intro a ha
      rw [bne_iff_ne]
      intro he
      subst he
      rcases List.mem_append.mp ha with h | h
      · exact hv_nl h
      · rcases List.mem_cons.mp h with h' | h'
        · exact absurd h' (by decide)
        · rcases List.mem_append.mp h' with h'' | h''
          · exact absurd h'' (by decide)
          · exact hd_nl h''
    exact congrArg some (takeWhile_all _ _ hall)
  have hscE : ';' ∉ (" Expires=".toList ++ d) := by
    intro hmem
    rcases List.mem_append.mp hmem with h | h
    · exact absurd h (by decide)
    · exact hd_sc h
  have htrim : trimChars (" Expires=".toList ++ d) = "Expires=".toList ++ trimRight d := by
    unfold trimChars
    have h1 : (" Expires=".toList ++ d).dropWhile Char.isWhitespace =
        "Expires=".toList ++ d := by
      show ((' ' :: "Expires=".toList) ++ d).dropWhile Char.isWhitespace = _
      rw [List.cons_append, List.dropWhile_cons, if_pos (by decide)]
      show (('E' :: "xpires=".toList) ++ d).dropWhile Char.isWhitespace = _
      rw [List.cons_append, List.dropWhile_cons, if_neg (by decide)]
      rfl
    rw [h1]
    exact trimRight_append ("Expires=".toList) d (by decide)
  have hparts : cookieParts (v ++ ';' :: (" Expires=".toList ++ d)) =
      [splitChar '=' v, "Expires".toList :: splitChar '=' (trimRight d)] := by
    unfold cookieParts
    rw [splitChar_append_cons ';' v _ hv_sc, splitChar_eq_single ';' _ hscE]
    show [splitChar '=' (trimChars v), splitChar '=' (trimChars (" Expires=".toList ++ d))] = _
    rw [hv_tr, htrim]
    have hsp : splitChar '=' ("Expires=".toList ++ trimRight d) =
        "Expires".toList :: splitChar '=' (trimRight d) := by
      have h2 : "Expires=".toList ++ trimRight d =
          "Expires".toList ++ '=' :: trimRight d := rfl
      rw [h2]
      exact splitChar_append_cons '=' ("Expires".toList) (trimRight d) (by decide)
    rw [hsp]
  obtain ⟨t, hsplit⟩ := splitChar_head '=' v
  have htok0 : ((cookieParts (v ++ ';' :: (" Expires=".toList ++ d))).headD []).headD [] =
      v.takeWhile (fun a => a != '=') := by
    rw [hparts, hsplit]
    rfl
  have htokne :
      ((cookieParts (v ++ ';' :: (" Expires=".toList ++ d))).headD []).headD [] ≠ [] := by
    rw [htok0]
    exact hv_tok
  by_cases hf : ((splitChar '=' v).headD [] == expiresKey) = true
  · have hfind : (cookieParts (v ++ ';' :: (" Expires=".toList ++ d))).find?
        (fun part => part.headD [] == expiresKey) = some (splitChar '=' v) := by
      rw [hparts]
      exact List.find?_cons_of_pos _ hf
    refine ⟨pd ((splitChar '=' v).getD 1 []), ?_, hne⟩
    have hres := parseCookie_eq pd _ _ (splitChar '=' v) hmatch htokne hfind
    rw [htok0] at hres
    exact hres
  · have hpred : (("Expires".toList :: splitChar '=' (trimRight d)).headD [] ==
        expiresKey) = true := by
      show (("Expires".toList : JStr) == expiresKey) = true
      decide
    have hf0 : ((splitChar '=' v).headD [] == expiresKey) = false := by
      simpa using hf
    have hfind : (cookieParts (v ++ ';' :: (" Expires=".toList ++ d))).find?
        (fun part => part.headD [] == expiresKey) =
        some ("Expires".toList :: splitChar '=' (trimRight d)) := by
      rw [hparts]
      simp only [List.find?, hf0, hpred]
    refine ⟨pd (("Expires".toList :: splitChar '=' (trimRight d)).getD 1 []), ?_, hne⟩
    have hres := parseCookie_eq pd _ _
      ("Expires".toList :: splitChar '=' (trimRight d)) hmatch htokne hfind
    rw [htok0] at hres
    exact hres

/-- C9 witness: value `abc=def` with date `Wed` yields token `abc`. -/
theorem c9_witness :
    ∃ e, parseCookie pdOne
        (some (cookiePat ++ ("abc=def".toList ++ ';' :: (" Expires=".toList ++ "Wed".toList)))) =
        .ok (some { token := ("abc=def".toList).takeWhile (fun a => a != '='), expires := e }) ∧
      ("abc=def".toList).takeWhile (fun a => a != '=') ≠ "abc=def".toList :=
  c9_token_before_eq pdOne ("abc=def".toList) ("Wed".toList) (by decide) (by decide)
    (by decide) (by decide) (by decide) (by decide) (by decide)

theorem cInv_step (now : Int) (s0 : Session) (hval : isValid now (some s0) = true)
    (s s' : CSt) (hstep : Step now (some s0) s s') (hinv : CInv s0 s) : CInv s0 s' := by
  cases hstep with
  | startMiss i hti hc =>
    rcases hinv with ⟨ha, hcache, hnp, hres, htasks, hdl⟩ | ⟨ha, hnp, hcache, htasks, hdl⟩
    · right
      refine ⟨?_, ?_, ?_, ?_, ?_⟩
      · show s.authReqs + 1 = 1
        rw [ha]
      · show s.nextP + 1 = 1
        rw [hnp]
      · left
        refine ⟨hres 0, ?_⟩
        show some (CEntry.pending s.nextP) = some (.pending 0)
        rw [hnp]
      · intro t ht
        rcases List.mem_or_eq_of_mem_set ht with h | h
        · left
          exact htasks t h
        · right; right; left
          rw [h, hnp]
      · intro c hc
        rw [hdl] at hc
        cases hc
    · rcases hcache with ⟨hr0, hcc⟩ | ⟨hr0, hcc⟩ <;> rw [hc] at hcc <;> cases hcc
  | startHitPending i pid hti hc =>
    rcases hinv with ⟨ha, hcache, hnp, hres, htasks, hdl⟩ | ⟨ha, hnp, hcache, htasks, hdl⟩
    · rw [hcache] at hc
      cases hc
    · right
      have hpid : pid = 0 := by
        rcases hcache with ⟨hr0, hcc⟩ | ⟨hr0, hcc⟩
        · rw [hcc] at hc
          injection hc with hc
          injection hc with hc
          exact hc.symm
        · rw [hcc] at hc
          injection hc with hc
          cases hc
      refine ⟨ha, hnp, hcache, ?_, hdl⟩
      intro t ht
      rcases List.mem_or_eq_of_mem_set ht with h | h
      · exact htasks t h
      · right; left
        rw [h, hpid]
  | startHitSettled i v hti hc =>
    rcases hinv with ⟨ha, hcache, hnp, hres, htasks, hdl⟩ | ⟨ha, hnp, hcache, htasks, hdl⟩
    · rw [hcache] at hc
      cases hc
    · right
      have hv0 : v = some s0 := by
        rcases hcache with ⟨hr0, hcc⟩ | ⟨hr0, hcc⟩
        · rw [hcc] at hc
          injection hc with hc
          cases hc
        · rw [hcc] at hc
          injection hc with hc
          injection hc with hc
          exact hc.symm
      refine ⟨ha, hnp, hcache, ?_, hdl⟩
      intro t ht
      rcases List.mem_or_eq_of_mem_set ht with h | h
      · exact htasks t h
      · right; right; right; left
        rw [h, hv0]
  | resolve pid hlt hres0 =>
    rcases hinv with ⟨ha, hcache, hnp, hres, htasks, hdl⟩ | ⟨ha, hnp, hcache, htasks, hdl⟩
    · rw [hnp] at hlt
      exact absurd hlt (Nat.not_lt_zero pid)
    · right
      have hpid : pid = 0 := by
        rw [hnp] at hlt
        exact Nat.lt_one_iff.mp hlt
      subst hpid
      rcases hcache with ⟨hr0, hcc⟩ | ⟨hr0, hcc⟩
      · refine ⟨ha, hnp, ?_, htasks, hdl⟩
        right
        constructor
        · show (if (0 : Nat) = 0 then some (some s0) else s.resolved 0) = some (some s0)
          exact if_pos rfl
        · rfl
      · rw [hr0] at hres0
        cases hres0
  | resumeMiss i pid v hti hresv =>
    rcases hinv with ⟨ha, hcache, hnp, hres, htasks, hdl⟩ | ⟨ha, hnp, hcache, htasks, hdl⟩
    · rw [hres pid] at hresv
      cases hresv
    · right
      have hsh := htasks _ (List.get?_mem hti)
      have hpid : pid = 0 := by
        rcases hsh with h | h | h | h | h | h
        · cases h
        · cases h
        · injection h
        · cases h
        · cases h
        · cases h
      subst hpid
      rcases hcache with ⟨hr0, hcc⟩ | ⟨hr0, hcc⟩
      · rw [hr0] at hresv
        cases hresv
      · rw [hr0] at hresv
        injection hresv with hveq
        refine ⟨ha, hnp, Or.inr ⟨hr0, hcc⟩, ?_, hdl⟩
        intro t ht
        rcases List.mem_or_eq_of_mem_set ht with h | h
        · exact htasks t h
        · right; right; right; right; left
          rw [h, ← hveq]
  | resumeHitPValid i pid v hti hresv hv =>
    rcases hinv with ⟨ha, hcache, hnp, hres, htasks, hdl⟩ | ⟨ha, hnp, hcache, htasks, hdl⟩
    · rw [hres pid] at hresv
      cases hresv
    · right
      have hsh := htasks _ (List.get?_mem hti)
      have hpid : pid = 0 := by
        rcases hsh with h | h | h | h | h | h
        · cases h
        · injection h
        · cases h
        · cases h
        · cases h
        · cases h
      subst hpid
      rcases hcache with ⟨hr0, hcc⟩ | ⟨hr0, hcc⟩
      · rw [hr0] at hresv
        cases hresv
      · rw [hr0] at hresv
        injection hresv with hveq
        refine ⟨ha, hnp, Or.inr ⟨hr0, hcc⟩, ?_, hdl⟩
        intro t ht
        rcases List.mem_or_eq_of_mem_set ht with h | h
        · exact htasks t h
        · right; right; right; right; left
          rw [h, ← hveq]
  | resumeHitPInvalid i pid v hti hresv hv =>
    rcases hinv with ⟨ha, hcache, hnp, hres, htasks, hdl⟩ | ⟨ha, hnp, hcache, htasks, hdl⟩
    · rw [hres pid] at hresv
      cases hresv
    · have hsh := htasks _ (List.get?_mem hti)
      have hpid : pid = 0 := by
        rcases hsh with h | h | h | h | h | h
        · cases h
        · injection h
        · cases h
        · cases h
        · cases h
        · cases h
      subst hpid
      rcases hcache with ⟨hr0, hcc⟩ | ⟨hr0, hcc⟩
      · rw [hr0] at hresv
        cases hresv
      · rw [hr0] at hresv
        injection hresv with hveq
        rw [← hveq, hval] at hv
        cases hv
  | resumeHitVValid i v hti hv =>
    rcases hinv with ⟨ha, hcache, hnp, hres, htasks, hdl⟩ | ⟨ha, hnp, hcache, htasks, hdl⟩
    · have hsh := htasks _ (List.get?_mem hti)
      cases hsh
    · right
      have hsh := htasks _ (List.get?_mem hti)
      have hveq : v = some s0 := by
        rcases hsh with h | h | h | h | h | h
        · cases h
        · cases h
        · cases h
        · injection h
        · cases h
        · cases h
      refine ⟨ha, hnp, hcache, ?_, hdl⟩
      intro t ht
      rcases List.mem_or_eq_of_mem_set ht with h | h
      · exact htasks t h
      · right; right; right; right; left
        rw [h, hveq]
  | resumeHitVInvalid i v hti hv =>
    rcases hinv with ⟨ha, hcache, hnp, hres, htasks, hdl⟩ | ⟨ha, hnp, hcache, htasks, hdl⟩
    · have hsh := htasks _ (List.get?_mem hti)
      cases hsh
    · have hsh := htasks _ (List.get?_mem hti)
      have hveq : v = some s0 := by
        rcases hsh with h | h | h | h | h | h
        · cases h
        · cases h
        · cases h
        · injection h
        · cases h
        · cases h
      rw [hveq, hval] at hv
      cases hv
  | dataCall i v hti =>
    rcases hinv with ⟨ha, hcache, hnp, hres, htasks, hdl⟩ | ⟨ha, hnp, hcache, htasks, hdl⟩
    · have hsh := htasks _ (List.get?_mem hti)
      cases hsh
    · right
      have hsh := htasks _ (List.get?_mem hti)
      have hveq : v = some s0 := by
        rcases hsh with h | h | h | h | h | h
        · cases h
        · cases h
        · cases h
        · cases h
        · injection h
        · cases h
      refine ⟨ha, hnp, hcache, ?_, ?_⟩
      · intro t ht
        rcases List.mem_or_eq_of_mem_set ht with h | h
        · exact htasks t h
        · right; right; right; right; right
          rw [h, hveq]
      · intro c hc
        rcases List.mem_append.mp hc with h | h
        · exact hdl c h
        · rcases List.mem_cons.mp h with h' | h'
          · rw [h', hveq]
          · cases h'

/-- C1 counterexample: the claim extends the single-flight guarantee to a
key holding only an *expired* cached entry.  Two callers arrive while the
cache holds an expired settled record (every authentication resolving to a
fresh valid session): both look the entry up and suspend on its `await`
before either re-authenticates, then each resumes, finds the old record
invalid and installs its own authentication — two authentication requests
are issued instead of the claimed exactly one. -/
theorem c1_counterexample :
    isValid 10 (some oldSession) = false ∧
    isValid 10 (some newSession) = true ∧
    ∃ s, Relation.ReflTransGen (Step 10 (some newSession)) cexPool s ∧ s.authReqs = 2 := by
  refine ⟨by decide, by decide,
    ⟨{ tasks := [.waitingMiss 0, .waitingMiss 1], cache := some (.pending 1),
       nextP := 2, resolved := fun _ => none, authReqs := 2, dataLog := [] }, ?_, rfl⟩⟩
  exact Relation.ReflTransGen.head
    (Step.startHitSettled cexPool 0 (some oldSession) rfl rfl)
    (Relation.ReflTransGen.head
      (Step.startHitSettled
        { tasks := [.waitingHitV (some oldSession), .start],
          cache := some (.settled (some oldSession)), nextP := 0,
          resolved := fun _ => none, authReqs := 0, dataLog := [] }
        1 (some oldSession) rfl rfl)
      (Relation.ReflTransGen.head
        (Step.resumeHitVInvalid
          { tasks := [.waitingHitV (some oldSession), .waitingHitV (some oldSession)],
            cache := some (.settled (some oldSession)), nextP := 0,
            resolved := fun _ => none, authReqs := 0, dataLog := [] }
          0 (some oldSession) rfl (by decide))
        (Relation.ReflTransGen.head
          (Step.resumeHitVInvalid
            { tasks := [.waitingMiss 0, .waitingHitV (some oldSession)],
              cache := some (.pending 0), nextP := 1,
              resolved := fun _ => none, authReqs := 1, dataLog := [] }
            1 (some oldSession) rfl (by decide))
          Relation.ReflTransGen.refl)))

/-- C1 amended: restricted to a session key with *no* cached entry, the
single-flight guarantee holds: when every authentication resolves to a
session valid at `now`, then along every event-loop interleaving of `K`
concurrent callers, at most one authentication request is ever issued,
every data call carries that one session's cookie, and as soon as any
caller has issued its data call the authentication count is exactly one.
(With only an expired cached entry the guarantee fails: see the
counterexample.) -/
theorem c1_single_flight (now : Int) (s0 : Session) (K : Nat)
    (hval : isValid now (some s0) = true) (s : CSt)
    (hreach : Relation.ReflTransGen (Step now (some s0)) (initPool K) s) :
    s.authReqs ≤ 1 ∧
    (∀ c ∈ s.dataLog, c = attachedCookie (some s0)) ∧
    ((∃ t, t ∈ s.tasks ∧ ∃ ck, t = .dataIssued ck) → s.authReqs = 1) := by
  have hinv : CInv s0 s := by
    induction hreach with
    | refl =>
      left
      exact ⟨rfl, rfl, rfl, fun pid => rfl, fun t ht => List.eq_of_mem_replicate ht, rfl⟩
    | tail hsteps hstep ih => exact cInv_step now s0 hval _ _ hstep ih
  rcases hinv with ⟨ha, hcache, hnp, hres, htasks, hdl⟩ | ⟨ha, hnp, hcache, htasks, hdl⟩
  · refine ⟨?_, ?_, ?_⟩
    · rw [ha]
      exact Nat.zero_le 1
    · intro c hc
      rw [hdl] at hc
      cases hc
    · rintro ⟨t, ht, ck, hck⟩
      have hts := htasks t ht
      rw [hts] at hck
      cases hck
  · exact ⟨by rw [ha], hdl, fun _ => ha⟩

/-- C1 witness: a concrete completed flight of one of two concurrent
callers, reached by install → resolve → resume → data call from the empty
pool, shows exactly one authentication request and the session's cookie on
the logged data call. -/
theorem c1_witness :
    (flightState sessW).authReqs = 1 ∧
    (∀ c ∈ (flightState sessW).dataLog, c = attachedCookie (some sessW)) := by
  have htrace : Relation.ReflTransGen (Step 0 (some sessW)) (initPool 2)
      (flightState sessW) :=
    Relation.ReflTransGen.head
      (Step.startMiss (initPool 2) 0 rfl rfl)
      (Relation.ReflTransGen.head
        (Step.resolve
          { tasks := [.waitingMiss 0, .start], cache := some (.pending 0), nextP := 1,
            resolved := fun _ => none, authReqs := 1, dataLog := [] }
          0 (by decide) rfl)
        (Relation.ReflTransGen.head
          (Step.resumeMiss
            { tasks := [.waitingMiss 0, .start], cache := some (.settled (some sessW)),
              nextP := 1, resolved := fun q => if q = 0 then some (some sessW) else none,
              authReqs := 1, dataLog := [] }
            0 0 (some sessW) rfl rfl)
          (Relation.ReflTransGen.head
            (Step.dataCall
              { tasks := [.haveSession (some sessW), .start],
                cache := some (.settled (some sessW)), nextP := 1,
                resolved := fun q => if q = 0 then some (some sessW) else none,
                authReqs := 1, dataLog := [] }
              0 (some sessW) rfl)
            Relation.ReflTransGen.refl)))
  have h := c1_single_flight 0 sessW 2 (by decide) (flightState sessW) htrace
  exact ⟨h.2.2 ⟨.dataIssued (attachedCookie (some sessW)),
    List.mem_cons_self _ _, attachedCookie (some sessW), rfl⟩, h.2.1⟩

/-- C8 witness: a concrete run against a rotating server ends with the
rotated record in the cache. -/
theorem c8_witness :
    (dbFetch serverRotate pdOne 0 dbCred urlData none 1 emptySt).1.sessions
        (getSessionKey dbCred) =
      some (.settled (some { token := "t2".toList, expires := 1000 })) := by
  have h2 : (dbFetch serverRotate pdOne 0 dbCred urlData none 1 emptySt).2 =
      .ok { status := 200, setCookie := some ("AuthSession=t2; Expires=future".toList) } := rfl
  exact c8_rotation serverRotate pdOne 0 dbCred urlData 1 none emptySt
    (dbFetch serverRotate pdOne 0 dbCred urlData none 1 emptySt).1
    { status := 200, setCookie := some ("AuthSession=t2; Expires=future".toList) }
    { token := "t2".toList, expires := 1000 }
    (by rw [← h2]) rfl

end PDSA
